import Mathlib

/-!
Shallow embedding of the realtime relay core of `src/server/index.js`
(a Socket.IO chat relay with presence tracking).

The JavaScript state consists of
  * per-socket state: the set of rooms the socket has joined
    (`socket.join(roomId)`) and `socket.data.user`;
  * the global `onlineUsers` Map from user email to socket id.

JS `Map` is embedded as an association list with unique keys, with
`mapGet` / `mapSet` / `mapDelete` mirroring `Map.get` / `Map.set` /
`Map.delete`.  Each Socket.IO event handler becomes a pure function from
the server state (plus the event payload and the outcome of any external
persistence call) to the new state together with the emissions, database
calls and log lines it performs, in order.
-/

namespace RemoteSuite

/-- JS `Map.get`: the value bound to `k`, or `none`. -/
def mapGet {α : Type} (m : List (String × α)) (k : String) : Option α :=
  match m with
  | [] => none
  | (k', v) :: rest => if k' = k then some v else mapGet rest k

/-- JS `Map.set`: overwrite the binding of `k` in place, or append it. -/
def mapSet {α : Type} (m : List (String × α)) (k : String) (v : α) :
    List (String × α) :=
  match m with
  | [] => [(k, v)]
  | (k', v') :: rest =>
    if k' = k then (k, v) :: rest else (k', v') :: mapSet rest k v

/-- JS `Map.delete`: remove the binding of `k` (the first one, which is the
only one when keys are unique). -/
def mapDelete {α : Type} (m : List (String × α)) (k : String) :
    List (String × α) :=
  match m with
  | [] => []
  | (k', v') :: rest =>
    if k' = k then rest else (k', v') :: mapDelete rest k

/-- The keys of an association list. -/
def keys {α : Type} (m : List (String × α)) : List String :=
  m.map Prod.fst

/-- The user identity a client supplies at join time:
`{id, name, email}` (§3 of the spec; field `user` of `join-room`). -/
structure User where
  id : String
  name : String
  email : String
deriving DecidableEq, Repr

/-- A chat message as carried by `send_message`:
`{roomId, sender_id, sender_email, content, created_at}`. -/
structure Message where
  roomId : String
  sender_id : String
  sender_email : String
  content : String
  created_at : String
deriving DecidableEq, Repr

/-- A socket id (`socket.id`). -/
abbrev ConnId := String

/-- Per-connection state held by the transport layer:
the rooms the socket has joined and `socket.data.user`. -/
structure ConnState where
  rooms : List String
  user : Option User
deriving DecidableEq, Repr

/-- The whole mutable server state: the registry of live connections and
the `onlineUsers` map (email ↦ socket id). -/
structure ServerState where
  conns : List (ConnId × ConnState)
  onlineUsers : List (String × ConnId)
deriving DecidableEq, Repr

/-- The empty server state at process start. -/
def initState : ServerState := ⟨[], []⟩

/-- An outbound event with its payload, as emitted over the wire. -/
inductive OutEvent where
  | user_online (email : String)
  | typing (isTyping : Bool) (senderName : String)
  | receive_message (msg : Message)
  | room_added (id name : String) (is_group : Bool) (members : List String)
  | offer (fromId sdp : String)
  | answer (fromId sdp : String)
  | iceCandidate (fromId candidate : String)
  | user_offline (email lastSeen : String)
deriving DecidableEq, Repr

/-- The addressing of an emission:
`io.to(room).emit` (room, sender included), `socket.to(room).emit`
(room, sender excluded) or `io.emit` (every connection). -/
inductive Emission where
  | toRoom (room : String) (ev : OutEvent)
  | toRoomExcept (room : String) (excluded : ConnId) (ev : OutEvent)
  | toAll (ev : OutEvent)
deriving DecidableEq, Repr

/-- A call made to the external store (Supabase). -/
inductive DbCall where
  | insertMessage (msg : Message)
  | updateLastSeen (email lastSeen : String)
deriving DecidableEq, Repr

/-- A `console.log` / `console.error` line, by call site. -/
inductive LogEntry where
  | socketConnected (cid : ConnId)
  | joinedRoom (name room : String)
  | supabaseInsertError
  | messageSendError
  | disconnected (name : String)
deriving DecidableEq, Repr

/-- What one handler invocation produces: the new state and, in order,
the emissions, external store calls and log lines it performed. -/
structure HandlerResult where
  state : ServerState
  emits : List Emission
  calls : List DbCall
  logs : List LogEntry
deriving DecidableEq, Repr

/-- Whether `cid` is a currently-registered (connected) connection. -/
def isConn (s : ServerState) (cid : ConnId) : Bool :=
  (mapGet s.conns cid).isSome

/-- Whether connection `cid` is currently a member of room `r`. -/
def inRoom (s : ServerState) (cid : ConnId) (r : String) : Bool :=
  match mapGet s.conns cid with
  | some cs => r ∈ cs.rooms
  | none => false

/-- The `isOnline(email)` check: presence existence (`onlineUsers.has`). -/
def isOnline (s : ServerState) (email : String) : Bool :=
  (mapGet s.onlineUsers email).isSome

/-- Whether connection `c` receives emission `em`, judged against the
server state `s` current at the moment of the emit. -/
def receives (s : ServerState) (em : Emission) (c : ConnId) : Bool :=
  match em with
  | .toRoom r _ => isConn s c && inRoom s c r
  | .toRoomExcept r x _ => decide (c ≠ x) && isConn s c && inRoom s c r
  | .toAll _ => isConn s c

/-- How many of the emissions in `ems` are delivered to connection `c`
(judged against state `s`). -/
def deliveredCount (s : ServerState) (ems : List Emission) (c : ConnId) : Nat :=
  (ems.filter (fun em => receives s em c)).length

/-- The `socket.join(roomId)` step: add the room to the socket's room set
(a no-op if already a member). -/
def addRoom (rs : List String) (r : String) : List String :=
  if r ∈ rs then rs else rs ++ [r]

/-- The `io.on("connection", ...)` handler: register a fresh socket (empty room set,
no user) and log.  Socket ids are unique, so a colliding id is a no-op. -/
def handleConnect (s : ServerState) (cid : ConnId) : HandlerResult :=
  if (mapGet s.conns cid).isSome then ⟨s, [], [], []⟩
  else
    ⟨{ s with conns := mapSet s.conns cid ⟨[], none⟩ },
     [], [], [.socketConnected cid]⟩

/-- The `socket.on("join-room")` handler: `socket.join(roomId)`,
`socket.data.user = user`, `onlineUsers.set(user.email, socket.id)`,
`io.to(roomId).emit("user_online", user.email)`, then a log line.
Socket.IO only dispatches to live sockets, so an unregistered id is a
no-op. -/
def handleJoinRoom (s : ServerState) (cid : ConnId) (roomId : String)
    (user : User) : HandlerResult :=
  match mapGet s.conns cid with
  | none => ⟨s, [], [], []⟩
  | some cs =>
    let cs' : ConnState := ⟨addRoom cs.rooms roomId, some user⟩
    let s' : ServerState :=
      ⟨mapSet s.conns cid cs', mapSet s.onlineUsers user.email cid⟩
    ⟨s', [.toRoom roomId (.user_online user.email)], [],
     [.joinedRoom user.name roomId]⟩

/-- The `socket.on("typing")` handler:
`socket.to(roomId).emit("typing", {isTyping, senderName})` — a stateless
relay. -/
def handleTyping (s : ServerState) (cid : ConnId) (roomId : String)
    (isTyping : Bool) (senderName : String) : HandlerResult :=
  ⟨s, [.toRoomExcept roomId cid (.typing isTyping senderName)], [], []⟩

/-- The `socket.on("send_message")` handler: insert the message into the store; on
error (`if (error) return console.error(...)`) log and stop; otherwise
`io.to(roomId).emit("receive_message", msg)`.  `insertError` is the
outcome of the Supabase insert. -/
def handleSendMessage (s : ServerState) (msg : Message)
    (insertError : Bool) : HandlerResult :=
  if insertError then
    ⟨s, [], [.insertMessage msg], [.supabaseInsertError]⟩
  else
    ⟨s, [.toRoom msg.roomId (.receive_message msg)],
     [.insertMessage msg], []⟩

/-- The `socket.on("new_room_created")` handler:
`io.emit("room_added", {id, name, is_group, members})` — a stateless
global broadcast. -/
def handleNewRoomCreated (s : ServerState) (id name : String)
    (is_group : Bool) (members : List String) : HandlerResult :=
  ⟨s, [.toAll (.room_added id name is_group members)], [], []⟩

/-- The `socket.on("offer")` handler: relay to the room excluding the sender, with
`from: socket.id` attached. -/
def handleOffer (s : ServerState) (cid : ConnId) (roomId sdp : String) :
    HandlerResult :=
  ⟨s, [.toRoomExcept roomId cid (.offer cid sdp)], [], []⟩

/-- The `socket.on("answer")` handler: relay to the room excluding the sender. -/
def handleAnswer (s : ServerState) (cid : ConnId) (roomId sdp : String) :
    HandlerResult :=
  ⟨s, [.toRoomExcept roomId cid (.answer cid sdp)], [], []⟩

/-- The `socket.on("ice-candidate")` handler: relay to the room excluding the
sender. -/
def handleIceCandidate (s : ServerState) (cid : ConnId)
    (roomId candidate : String) : HandlerResult :=
  ⟨s, [.toRoomExcept roomId cid (.iceCandidate cid candidate)], [], []⟩

/-- The `socket.on("disconnect")` handler: the transport has already removed the
socket, so the registry entry goes first.  Then, only if
`socket.data.user` was set: `onlineUsers.delete(user.email)`
(unconditional — the code does not check that the entry still points at
this socket), `io.emit("user_offline", user.email, lastSeen)`, the
best-effort `update({last_seen})` call whose result the code discards
(`updateError` is that discarded outcome), and a log line.  `lastSeen`
stands for `new Date().toISOString()`. -/
def handleDisconnect (s : ServerState) (cid : ConnId) (lastSeen : String)
    (updateError : Bool) : HandlerResult :=
  match mapGet s.conns cid with
  | none => ⟨s, [], [], []⟩
  | some cs =>
    let s0 : ServerState := { s with conns := mapDelete s.conns cid }
    match cs.user with
    | none => ⟨s0, [], [], []⟩
    | some u =>
      let _ := updateError
      ⟨{ s0 with onlineUsers := mapDelete s0.onlineUsers u.email },
       [.toAll (.user_offline u.email lastSeen)],
       [.updateLastSeen u.email lastSeen],
       [.disconnected u.name]⟩

/-- An inbound event of the relay, with the nondeterministic inputs
(store outcomes, the clock) made explicit. -/
inductive Event where
  | connect (cid : ConnId)
  | joinRoom (cid : ConnId) (roomId : String) (user : User)
  | typing (cid : ConnId) (roomId : String) (isTyping : Bool)
      (senderName : String)
  | sendMessage (cid : ConnId) (msg : Message) (insertError : Bool)
  | newRoomCreated (cid : ConnId) (id name : String) (is_group : Bool)
      (members : List String)
  | offer (cid : ConnId) (roomId sdp : String)
  | answer (cid : ConnId) (roomId sdp : String)
  | iceCandidate (cid : ConnId) (roomId candidate : String)
  | disconnect (cid : ConnId) (lastSeen : String) (updateError : Bool)
deriving DecidableEq, Repr

/-- Dispatch one inbound event to its handler. -/
def step (s : ServerState) (ev : Event) : HandlerResult :=
  match ev with
  | .connect cid => handleConnect s cid
  | .joinRoom cid roomId user => handleJoinRoom s cid roomId user
  | .typing cid roomId t n => handleTyping s cid roomId t n
  | .sendMessage cid msg e =>
    let _ := cid
    handleSendMessage s msg e
  | .newRoomCreated _ id name g members =>
    handleNewRoomCreated s id name g members
  | .offer cid roomId sdp => handleOffer s cid roomId sdp
  | .answer cid roomId sdp => handleAnswer s cid roomId sdp
  | .iceCandidate cid roomId c => handleIceCandidate s cid roomId c
  | .disconnect cid lastSeen e => handleDisconnect s cid lastSeen e

/-- Run a trace of events from a state (single-threaded dispatch, each
handler's synchronous part runs to completion). -/
def run (s : ServerState) : List Event → ServerState
  | [] => s
  | ev :: tr => run (step s ev).state tr

/-- Claim-level presence/registry consistency: every entry of the
`onlineUsers` map references a currently-registered connection. -/
def presenceRegistered (s : ServerState) : Prop :=
  ∀ p ∈ s.onlineUsers, isConn s p.2 = true

instance (s : ServerState) : Decidable (presenceRegistered s) := by
  unfold presenceRegistered
  infer_instance

/-- Inductive strengthening of presence/registry consistency, relative
to an assignment `em` of one email per connection id: every presence
entry points at a registered connection whose stored user carries the
entry's email, every registered connection's stored user carries its
assigned email, and the presence map's keys are unique. -/
def presenceInv (em : ConnId → String) (s : ServerState) : Prop :=
  (∀ p ∈ s.onlineUsers, ∃ cs, mapGet s.conns p.2 = some cs ∧
      ∃ u, cs.user = some u ∧ u.email = p.1) ∧
  (∀ q ∈ s.conns, ∀ u, (q.2 : ConnState).user = some u → u.email = em q.1) ∧
  (keys s.onlineUsers).Nodup

/-- An event respects the email assignment `em` when any `join-room` it
carries uses the connection's assigned email. -/
def emConsistent (em : ConnId → String) : Event → Prop
  | .joinRoom cid _ u => u.email = em cid
  | _ => True

/-! ### Association-list map lemmas -/

theorem mapGet_eq_none_of_not_mem {α : Type} {m : List (String × α)}
    {k : String} (h : k ∉ keys m) : mapGet m k = none := by
  induction m with
  | nil => rfl
  | cons p rest ih =>
    obtain ⟨k', v⟩ := p
    simp only [keys, List.map_cons, List.mem_cons] at h
    push_neg at h
    simp only [mapGet]
    rw [if_neg (fun hk => h.1 hk.symm)]
    exact ih (by simpa [keys] using h.2)

theorem mapGet_mapSet_self {α : Type} (m : List (String × α)) (k : String)
    (v : α) : mapGet (mapSet m k v) k = some v := by
  induction m with
  | nil => simp [mapSet, mapGet]
  | cons p rest ih =>
    obtain ⟨k', v'⟩ := p
    by_cases h : k' = k <;> simp [mapSet, mapGet, h, ih]

theorem mapGet_mapSet_ne {α : Type} (m : List (String × α)) {k k' : String}
    (v : α) (h : k' ≠ k) : mapGet (mapSet m k v) k' = mapGet m k' := by
  induction m with
  | nil =>
    simp only [mapSet, mapGet]
    exact if_neg fun hk => h hk.symm
  | cons p rest ih =>
    obtain ⟨k₀, v₀⟩ := p
    by_cases h0 : k₀ = k
    · subst h0
      simp only [mapSet, if_pos rfl, mapGet]
      rw [if_neg fun hk => h hk.symm, if_neg fun hk => h hk.symm]
    · simp [mapSet, mapGet, h0, ih]

theorem mapGet_cons {α : Type} (a : String) (b : α) (m : List (String × α))
    (k : String) :
    mapGet ((a, b) :: m) k = if a = k then some b else mapGet m k := rfl

theorem mapDelete_cons {α : Type} (a : String) (b : α)
    (m : List (String × α)) (k : String) :
    mapDelete ((a, b) :: m) k
      = if a = k then m else (a, b) :: mapDelete m k := rfl

theorem mapGet_mapDelete_ne {α : Type} (m : List (String × α))
    {k k' : String} (h : k' ≠ k) :
    mapGet (mapDelete m k) k' = mapGet m k' := by
  induction m with
  | nil => rfl
  | cons p rest ih =>
    obtain ⟨k₀, v₀⟩ := p
    rw [mapDelete_cons]
    by_cases h0 : k₀ = k
    · rw [if_pos h0, mapGet_cons,
        if_neg fun hk : k₀ = k' => h (hk.symm.trans h0)]
    · rw [if_neg h0, mapGet_cons, mapGet_cons]
      by_cases h1 : k₀ = k'
      · rw [if_pos h1, if_pos h1]
      · rw [if_neg h1, if_neg h1]
        exact ih

theorem mapGet_mapDelete_self {α : Type} {m : List (String × α)}
    {k : String} (hnd : (keys m).Nodup) :
    mapGet (mapDelete m k) k = none := by
  induction m with
  | nil => rfl
  | cons p rest ih =>
    obtain ⟨k₀, v₀⟩ := p
    simp only [keys, List.map_cons, List.nodup_cons] at hnd
    by_cases h0 : k₀ = k
    · subst h0
      simp only [mapDelete, if_pos rfl]
      exact mapGet_eq_none_of_not_mem hnd.1
    · simp only [mapDelete, if_neg h0, mapGet, if_neg h0]
      exact ih hnd.2

theorem mem_of_mem_mapSet {α : Type} {m : List (String × α)}
    {k : String} {v : α} {p : String × α} (h : p ∈ mapSet m k v) :
    p = (k, v) ∨ p ∈ m := by
  induction m with
  | nil =>
    simp only [mapSet, List.mem_singleton] at h
    exact Or.inl h
  | cons q rest ih =>
    obtain ⟨k₀, v₀⟩ := q
    by_cases h0 : k₀ = k
    · simp only [mapSet, if_pos h0, List.mem_cons] at h
      rcases h with h | h
      · exact Or.inl h
      · exact Or.inr (List.mem_cons_of_mem _ h)
    · simp only [mapSet, if_neg h0, List.mem_cons] at h
      rcases h with h | h
      · exact Or.inr (by simp [h])
      · rcases ih h with h' | h'
        · exact Or.inl h'
        · exact Or.inr (List.mem_cons_of_mem _ h')

theorem mem_of_mem_mapDelete {α : Type} {m : List (String × α)}
    {k : String} {p : String × α} (h : p ∈ mapDelete m k) : p ∈ m := by
  induction m with
  | nil => simp [mapDelete] at h
  | cons q rest ih =>
    obtain ⟨k₀, v₀⟩ := q
    by_cases h0 : k₀ = k
    · simp only [mapDelete, if_pos h0] at h
      exact List.mem_cons_of_mem _ h
    · simp only [mapDelete, if_neg h0, List.mem_cons] at h
      rcases h with h | h
      · simp [h]
      · exact List.mem_cons_of_mem _ (ih h)

theorem nodup_keys_mapSet {α : Type} {m : List (String × α)}
    (k : String) (v : α) (hnd : (keys m).Nodup) :
    (keys (mapSet m k v)).Nodup := by
  induction m with
  | nil => simp [mapSet, keys]
  | cons q rest ih =>
    obtain ⟨k₀, v₀⟩ := q
    simp only [keys, List.map_cons, List.nodup_cons] at hnd
    by_cases h0 : k₀ = k
    · subst h0
      simpa [mapSet, keys, List.nodup_cons] using hnd
    · simp only [mapSet, if_neg h0, keys, List.map_cons, List.nodup_cons]
      refine ⟨?_, ih hnd.2⟩
      intro hmem
      have : k₀ = k ∨ k₀ ∈ keys rest := by
        have := List.mem_map.mp hmem
        obtain ⟨p, hp, hpk⟩ := this
        rcases mem_of_mem_mapSet hp with h' | h'
        · exact Or.inl (by rw [h'] at hpk; simpa using hpk.symm ▸ rfl)
        · exact Or.inr (List.mem_map.mpr ⟨p, h', hpk⟩)
      rcases this with h' | h'
      · exact h0 h'
      · exact hnd.1 h'

theorem nodup_keys_mapDelete {α : Type} {m : List (String × α)}
    (k : String) (hnd : (keys m).Nodup) :
    (keys (mapDelete m k)).Nodup := by
  induction m with
  | nil => simp [mapDelete, keys]
  | cons q rest ih =>
    obtain ⟨k₀, v₀⟩ := q
    simp only [keys, List.map_cons, List.nodup_cons] at hnd
    by_cases h0 : k₀ = k
    · subst h0
      simp only [mapDelete, if_pos rfl]
      exact hnd.2
    · simp only [mapDelete, if_neg h0, keys, List.map_cons, List.nodup_cons]
      refine ⟨?_, ih hnd.2⟩
      intro hmem
      obtain ⟨p, hp, hpk⟩ := List.mem_map.mp hmem
      exact hnd.1 (List.mem_map.mpr ⟨p, mem_of_mem_mapDelete hp, hpk⟩)

theorem mem_of_mapGet_eq_some {α : Type} {m : List (String × α)}
    {k : String} {v : α} (h : mapGet m k = some v) : (k, v) ∈ m := by
  induction m with
  | nil => simp [mapGet] at h
  | cons q rest ih =>
    obtain ⟨k₀, v₀⟩ := q
    rw [mapGet_cons] at h
    by_cases h0 : k₀ = k
    · rw [if_pos h0] at h
      subst h0
      have hv := Option.some.inj h
      simp [hv]
    · rw [if_neg h0] at h
      exact List.mem_cons_of_mem _ (ih h)

theorem fst_ne_of_mem_mapDelete {α : Type} {m : List (String × α)}
    {k : String} {p : String × α} (hnd : (keys m).Nodup)
    (h : p ∈ mapDelete m k) : p.1 ≠ k := by
  induction m with
  | nil => simp [mapDelete] at h
  | cons q rest ih =>
    obtain ⟨k₀, v₀⟩ := q
    simp only [keys, List.map_cons, List.nodup_cons] at hnd
    rw [mapDelete_cons] at h
    by_cases h0 : k₀ = k
    · rw [if_pos h0] at h
      subst h0
      intro hk
      exact hnd.1 (hk ▸ List.mem_map.mpr ⟨p, h, rfl⟩)
    · rw [if_neg h0] at h
      rcases List.mem_cons.mp h with h' | h'
      · rw [h']
        exact h0
      · exact ih hnd.2 h'

theorem deliveredCount_singleton (s : ServerState) (em : Emission)
    (c : ConnId) :
    deliveredCount s [em] c = if receives s em c = true then 1 else 0 := by
  by_cases hr : receives s em c <;>
    simp [deliveredCount, List.filter, hr]

/-! ### Preservation of the presence/registry invariant -/

theorem presenceInv_step (em : ConnId → String) (s : ServerState)
    (ev : Event) (hinv : presenceInv em s) (hev : emConsistent em ev) :
    presenceInv em (step s ev).state := by
  obtain ⟨h1, h2, h3⟩ := hinv
  cases ev with
  | connect cid =>
    simp only [step, handleConnect]
    by_cases hc : (mapGet s.conns cid).isSome
    · simpa [hc] using ⟨h1, h2, h3⟩
    · simp only [hc, Bool.false_eq_true, if_false]
      refine ⟨?_, ?_, h3⟩
      · intro p hp
        obtain ⟨cs, hcs, hu⟩ := h1 p hp
        refine ⟨cs, ?_, hu⟩
        have hne : p.2 ≠ cid := by
          intro he
          rw [he] at hcs
          rw [Option.not_isSome_iff_eq_none.mp hc] at hcs
          exact Option.noConfusion hcs
        rw [mapGet_mapSet_ne _ _ hne]
        exact hcs
      · intro q hq u hu
        rcases mem_of_mem_mapSet hq with h' | h'
        · rw [h'] at hu
          exact Option.noConfusion hu
        · exact h2 q h' u hu
  | joinRoom cid roomId user =>
    simp only [step, handleJoinRoom]
    cases hc : mapGet s.conns cid with
    | none => exact ⟨h1, h2, h3⟩
    | some cs =>
      have hemail : user.email = em cid := hev
      refine ⟨?_, ?_, nodup_keys_mapSet _ _ h3⟩
      · intro p hp
        rcases mem_of_mem_mapSet hp with h' | h'
        · subst h'
          exact ⟨⟨addRoom cs.rooms roomId, some user⟩,
            mapGet_mapSet_self _ _ _, user, rfl, rfl⟩
        · obtain ⟨cs₀, hcs₀, u₀, hu₀, he₀⟩ := h1 p h'
          by_cases hpc : p.2 = cid
          · rw [hpc] at hcs₀
            have hcs₀' : cs₀ = cs := by
              rw [hc] at hcs₀
              exact (Option.some.injEq _ _).mp hcs₀.symm
            have : u₀.email = em cid :=
              h2 (cid, cs) (mem_of_mapGet_eq_some hc) u₀ (hcs₀' ▸ hu₀)
            have hp1 : p.1 = user.email := by
              rw [← he₀, this, hemail]
            refine ⟨⟨addRoom cs.rooms roomId, some user⟩, ?_, user, rfl, ?_⟩
            · rw [hpc]
              exact mapGet_mapSet_self _ _ _
            · rw [hp1]
          · exact ⟨cs₀, by rw [mapGet_mapSet_ne _ _ hpc]; exact hcs₀,
              u₀, hu₀, he₀⟩
      · intro q hq u hu
        rcases mem_of_mem_mapSet hq with h' | h'
        · rw [h'] at hu ⊢
          have : user = u := by
            simpa using hu
          rw [← this]
          exact hemail
        · exact h2 q h' u hu
  | typing cid roomId t n => exact ⟨h1, h2, h3⟩
  | sendMessage cid msg e =>
    by_cases he : e <;> simp only [step, handleSendMessage, he] <;>
      exact ⟨h1, h2, h3⟩
  | newRoomCreated cid rid rname g members => exact ⟨h1, h2, h3⟩
  | offer cid roomId sdp => exact ⟨h1, h2, h3⟩
  | answer cid roomId sdp => exact ⟨h1, h2, h3⟩
  | iceCandidate cid roomId c => exact ⟨h1, h2, h3⟩
  | disconnect cid lastSeen e =>
    cases hc : mapGet s.conns cid with
    | none =>
      simp only [step, handleDisconnect, hc]
      exact ⟨h1, h2, h3⟩
    | some cs =>
      cases hu : cs.user with
      | none =>
        simp only [step, handleDisconnect, hc, hu]
        refine ⟨?_, ?_, h3⟩
        · intro p hp
          obtain ⟨cs₀, hcs₀, u₀, hu₀, he₀⟩ := h1 p hp
          have hpc : p.2 ≠ cid := by
            intro hpc
            rw [hpc, hc] at hcs₀
            have : cs₀ = cs := (Option.some.injEq _ _).mp hcs₀.symm
            rw [this, hu] at hu₀
            exact Option.noConfusion hu₀
          exact ⟨cs₀, by rw [mapGet_mapDelete_ne _ hpc]; exact hcs₀,
            u₀, hu₀, he₀⟩
        · intro q hq u' hu'
          exact h2 q (mem_of_mem_mapDelete hq) u' hu'
      | some u =>
        simp only [step, handleDisconnect, hc, hu]
        refine ⟨?_, ?_, nodup_keys_mapDelete _ h3⟩
        · intro p hp
          have hp1 : p.1 ≠ u.email := fst_ne_of_mem_mapDelete h3 hp
          have hpmem : p ∈ s.onlineUsers := mem_of_mem_mapDelete hp
          obtain ⟨cs₀, hcs₀, u₀, hu₀, he₀⟩ := h1 p hpmem
          have hpc : p.2 ≠ cid := by
            intro hpc
            rw [hpc, hc] at hcs₀
            have : cs₀ = cs := (Option.some.injEq _ _).mp hcs₀.symm
            rw [this, hu] at hu₀
            have : u₀ = u := (Option.some.injEq _ _).mp hu₀.symm
            exact hp1 (he₀ ▸ this ▸ rfl)
          exact ⟨cs₀, by rw [mapGet_mapDelete_ne _ hpc]; exact hcs₀,
            u₀, hu₀, he₀⟩
        · intro q hq u' hu'
          exact h2 q (mem_of_mem_mapDelete hq) u' hu'

theorem presenceInv_run (em : ConnId → String) (tr : List Event)
    (s : ServerState) (hinv : presenceInv em s)
    (htr : ∀ ev ∈ tr, emConsistent em ev) :
    presenceInv em (run s tr) := by
  induction tr generalizing s with
  | nil => exact hinv
  | cons ev tr ih =>
    exact ih _ (presenceInv_step em s ev hinv (htr ev (by simp)))
      (fun ev' h => htr ev' (List.mem_cons_of_mem _ h))

theorem presenceInv_init (em : ConnId → String) :
    presenceInv em initState :=
  ⟨fun p hp => absurd hp (List.not_mem_nil p),
   fun q hq => absurd hq (List.not_mem_nil q),
   List.nodup_nil⟩

/-! ### Claim theorems -/

theorem isConn_exists {s : ServerState} {cid : ConnId}
    (h : isConn s cid = true) : ∃ cs, mapGet s.conns cid = some cs :=
  Option.isSome_iff_exists.mp h

theorem mem_addRoom (rs : List String) (r : String) : r ∈ addRoom rs r := by
  by_cases h : r ∈ rs <;> simp [addRoom, h]

theorem handleJoinRoom_state (s : ServerState) (cid : ConnId)
    (roomId : String) (user : User) (cs : ConnState)
    (hcs : mapGet s.conns cid = some cs) :
    (handleJoinRoom s cid roomId user).state
      = ⟨mapSet s.conns cid ⟨addRoom cs.rooms roomId, some user⟩,
         mapSet s.onlineUsers user.email cid⟩ := by
  simp [handleJoinRoom, hcs]

theorem handleDisconnect_state (s : ServerState) (cid : ConnId)
    (lastSeen : String) (err : Bool) (cs : ConnState) (u : User)
    (hcs : mapGet s.conns cid = some cs) (hu : cs.user = some u) :
    (handleDisconnect s cid lastSeen err).state
      = ⟨mapDelete s.conns cid, mapDelete s.onlineUsers u.email⟩ := by
  simp [handleDisconnect, hcs, hu]

/-- C6 — Join postcondition: after a registered connection `cid`
processes `join-room(roomId, u)`, `isOnline(u.email)` holds, `cid` is a
member of `roomId`, and the single room-scoped `user_online u.email`
emission is delivered exactly once to every connected member of
`roomId` in the post-join state — `cid` itself included — and to no
non-member. -/
theorem claim_C6_join_postcondition (s : ServerState) (cid : ConnId)
    (roomId : String) (u : User) (hc : isConn s cid = true) :
    isOnline (handleJoinRoom s cid roomId u).state u.email = true ∧
    inRoom (handleJoinRoom s cid roomId u).state cid roomId = true ∧
    (handleJoinRoom s cid roomId u).emits
      = [Emission.toRoom roomId (OutEvent.user_online u.email)] ∧
    (∀ c, deliveredCount (handleJoinRoom s cid roomId u).state
        (handleJoinRoom s cid roomId u).emits c
      = if isConn (handleJoinRoom s cid roomId u).state c = true ∧
           inRoom (handleJoinRoom s cid roomId u).state c roomId = true
        then 1 else 0) ∧
    deliveredCount (handleJoinRoom s cid roomId u).state
      (handleJoinRoom s cid roomId u).emits cid = 1 := by
  obtain ⟨cs, hcs⟩ := isConn_exists hc
  have hst := handleJoinRoom_state s cid roomId u cs hcs
  have hon : isOnline (handleJoinRoom s cid roomId u).state u.email
      = true := by
    simp [isOnline, hst, mapGet_mapSet_self]
  have hin : inRoom (handleJoinRoom s cid roomId u).state cid roomId
      = true := by
    simp [inRoom, hst, mapGet_mapSet_self, mem_addRoom]
  have hem : (handleJoinRoom s cid roomId u).emits
      = [Emission.toRoom roomId (OutEvent.user_online u.email)] := by
    simp [handleJoinRoom, hcs]
  have hall : ∀ c, deliveredCount (handleJoinRoom s cid roomId u).state
      (handleJoinRoom s cid roomId u).emits c
      = if isConn (handleJoinRoom s cid roomId u).state c = true ∧
           inRoom (handleJoinRoom s cid roomId u).state c roomId = true
        then 1 else 0 := by
    intro c
    rw [hem, deliveredCount_singleton]
    simp [receives, Bool.and_eq_true]
  refine ⟨hon, hin, hem, hall, ?_⟩
  rw [hall cid, if_pos ?_]
  refine ⟨?_, hin⟩
  simp [isConn, hst, mapGet_mapSet_self]

/-- C6 witness: a concrete one-connection server joining room `r1`. -/
theorem claim_C6_witness :
    isOnline (handleJoinRoom ⟨[("A", ⟨[], none⟩)], []⟩ "A" "r1"
      ⟨"1", "Alice", "a@x.com"⟩).state "a@x.com" = true :=
  (claim_C6_join_postcondition ⟨[("A", ⟨[], none⟩)], []⟩ "A" "r1"
    ⟨"1", "Alice", "a@x.com"⟩ (by decide)).1

/-- C9 — Silent teardown of unjoined connections: a disconnect of a
connection whose `socket.data.user` was never set (it processed no
`join-room`) emits nothing, calls the store not at all, logs nothing,
and leaves the presence map untouched. -/
theorem claim_C9_silent_teardown (s : ServerState) (cid : ConnId)
    (cs : ConnState) (lastSeen : String) (updateError : Bool)
    (hcs : mapGet s.conns cid = some cs) (hu : cs.user = none) :
    (handleDisconnect s cid lastSeen updateError).emits = [] ∧
    (handleDisconnect s cid lastSeen updateError).calls = [] ∧
    (handleDisconnect s cid lastSeen updateError).logs = [] ∧
    (handleDisconnect s cid lastSeen updateError).state.onlineUsers
      = s.onlineUsers := by
  simp [handleDisconnect, hcs, hu]

/-- C9 witness: a concrete connection that never joined disconnects. -/
theorem claim_C9_witness :
    (handleDisconnect ⟨[("A", ⟨["r1"], none⟩)], [("b@x.com", "B")]⟩
      "A" "t0" false).state.onlineUsers = [("b@x.com", "B")] :=
  (claim_C9_silent_teardown ⟨[("A", ⟨["r1"], none⟩)], [("b@x.com", "B")]⟩
    "A" ⟨["r1"], none⟩ "t0" false (by decide) rfl).2.2.2

/-- C5 — Disconnect offline notification: when a connection holding
user `u` disconnects, the handler emits exactly one global
`user_offline` with `u.email` and the timestamp, delivered once to every
remaining connection; `isOnline(u.email)` becomes false; and the result
is identical whether the best-effort last-seen update fails or succeeds
(the emit precedes the awaited call and its outcome is discarded), so a
persistence failure cannot block the broadcast. -/
theorem claim_C5_disconnect_offline_broadcast (s : ServerState)
    (cid : ConnId) (cs : ConnState) (u : User) (lastSeen : String)
    (updateError : Bool) (hcs : mapGet s.conns cid = some cs)
    (hu : cs.user = some u) (hnd : (keys s.onlineUsers).Nodup) :
    (handleDisconnect s cid lastSeen updateError).emits
      = [Emission.toAll (OutEvent.user_offline u.email lastSeen)] ∧
    (handleDisconnect s cid lastSeen updateError).calls
      = [DbCall.updateLastSeen u.email lastSeen] ∧
    isOnline (handleDisconnect s cid lastSeen updateError).state u.email
      = false ∧
    (∀ c, deliveredCount (handleDisconnect s cid lastSeen updateError).state
        (handleDisconnect s cid lastSeen updateError).emits c
      = if isConn (handleDisconnect s cid lastSeen updateError).state c
           = true
        then 1 else 0) ∧
    handleDisconnect s cid lastSeen true
      = handleDisconnect s cid lastSeen false := by
  have hst := handleDisconnect_state s cid lastSeen updateError cs u hcs hu
  have hem : (handleDisconnect s cid lastSeen updateError).emits
      = [Emission.toAll (OutEvent.user_offline u.email lastSeen)] := by
    simp [handleDisconnect, hcs, hu]
  refine ⟨hem, by simp [handleDisconnect, hcs, hu], ?_, ?_, rfl⟩
  · simp [isOnline, hst, mapGet_mapDelete_self hnd]
  · intro c
    rw [hem, deliveredCount_singleton]
    simp [receives]

/-- C5 witness: a concrete joined connection disconnects while the
last-seen update errors. -/
theorem claim_C5_witness :
    isOnline (handleDisconnect
      ⟨[("A", ⟨["r1"], some ⟨"1", "Alice", "a@x.com"⟩⟩)],
       [("a@x.com", "A")]⟩ "A" "t0" true).state "a@x.com" = false :=
  (claim_C5_disconnect_offline_broadcast
    ⟨[("A", ⟨["r1"], some ⟨"1", "Alice", "a@x.com"⟩⟩)], [("a@x.com", "A")]⟩
    "A" ⟨["r1"], some ⟨"1", "Alice", "a@x.com"⟩⟩ ⟨"1", "Alice", "a@x.com"⟩
    "t0" true (by decide) rfl (by decide)).2.2.1


/-- C1 — counterexample: connection `A` joins as `u@x.com`, connection
`B` (a different id) joins as the same email, then `A`'s disconnect is
processed; the code's unconditional `onlineUsers.delete(user.email)`
evicts `B`'s live presence, so `isOnline("u@x.com")` is false even
though `B` is still connected, contradicting the claimed guard. -/
theorem claim_C1_counterexample :
    isConn (run initState
      [Event.connect "A",
       Event.joinRoom "A" "r1" ⟨"1", "Alice", "u@x.com"⟩,
       Event.connect "B",
       Event.joinRoom "B" "r1" ⟨"1", "Alice", "u@x.com"⟩,
       Event.disconnect "A" "t0" false]) "B" = true ∧
    isOnline (run initState
      [Event.connect "A",
       Event.joinRoom "A" "r1" ⟨"1", "Alice", "u@x.com"⟩,
       Event.connect "B",
       Event.joinRoom "B" "r1" ⟨"1", "Alice", "u@x.com"⟩,
       Event.disconnect "A" "t0" false]) "u@x.com" = false := by
  decide

/-- C1 (amended) — there is no reconnect race guard: in the claimed
scenario (A joins as U, then a different connection B joins as U, then
A's disconnect is processed) the disconnect handler removes the presence
entry for `U.email` unconditionally, so `isOnline(U.email)` is false
after A's disconnect completes even though B is still registered. -/
theorem claim_C1_amended_no_reconnect_guard (s : ServerState)
    (A B : ConnId) (rA rB : String) (U : User) (lastSeen : String)
    (err : Bool) (hAB : A ≠ B) (hA : isConn s A = true)
    (hB : isConn s B = true) (hnd : (keys s.onlineUsers).Nodup) :
    isConn (handleJoinRoom (handleJoinRoom s A rA U).state B rB U).state B
      = true ∧
    isOnline (handleDisconnect
        (handleJoinRoom (handleJoinRoom s A rA U).state B rB U).state
        A lastSeen err).state U.email = false := by
  obtain ⟨csA, hcsA⟩ := isConn_exists hA
  obtain ⟨csB, hcsB⟩ := isConn_exists hB
  have hs1 := handleJoinRoom_state s A rA U csA hcsA
  have hgB : mapGet (handleJoinRoom s A rA U).state.conns B = some csB := by
    rw [hs1]
    exact (mapGet_mapSet_ne _ _ (Ne.symm hAB)).trans hcsB
  have hs2 := handleJoinRoom_state (handleJoinRoom s A rA U).state
    B rB U csB hgB
  constructor
  · simp [isConn, hs2, mapGet_mapSet_self]
  · have hgA2 : mapGet (handleJoinRoom (handleJoinRoom s A rA U).state
        B rB U).state.conns A
        = some ⟨addRoom csA.rooms rA, some U⟩ := by
      rw [hs2]
      show mapGet (mapSet (handleJoinRoom s A rA U).state.conns B _) A = _
      rw [mapGet_mapSet_ne _ _ hAB, hs1]
      exact mapGet_mapSet_self _ _ _
    have hsd := handleDisconnect_state _ A lastSeen err
      ⟨addRoom csA.rooms rA, some U⟩ U hgA2 rfl
    have hnd2 : (keys (handleJoinRoom (handleJoinRoom s A rA U).state
        B rB U).state.onlineUsers).Nodup := by
      rw [hs2]
      show (keys (mapSet (handleJoinRoom s A rA U).state.onlineUsers
        U.email B)).Nodup
      refine nodup_keys_mapSet _ _ ?_
      rw [hs1]
      exact nodup_keys_mapSet _ _ hnd
    simp [isOnline, hsd, mapGet_mapDelete_self hnd2]

/-- C1 witness for the amended theorem: the concrete two-connection
reconnect race. -/
theorem claim_C1_witness :
    isOnline (handleDisconnect
        (handleJoinRoom
          (handleJoinRoom ⟨[("A", ⟨[], none⟩), ("B", ⟨[], none⟩)], []⟩
            "A" "r1" ⟨"1", "Alice", "u@x.com"⟩).state
          "B" "r1" ⟨"1", "Alice", "u@x.com"⟩).state
        "A" "t0" false).state "u@x.com" = false :=
  (claim_C1_amended_no_reconnect_guard
    ⟨[("A", ⟨[], none⟩), ("B", ⟨[], none⟩)], []⟩ "A" "B" "r1" "r1"
    ⟨"1", "Alice", "u@x.com"⟩ "t0" false
    (by decide) (by decide) (by decide) (by decide)).2

/-- C10 — Join frame property on presence: `join-room` touches no
presence entry other than the joining user's email; and a connection
that joins as `u1` then as a different email `u2` leaves `u1`'s entry
pointing at itself, while its disconnect removes only `u2`'s entry
(every other key, `u1.email` included, is untouched). -/
theorem claim_C10_join_frame :
    (∀ (s : ServerState) (cid : ConnId) (roomId : String) (u : User)
        (e : String), e ≠ u.email →
      mapGet (handleJoinRoom s cid roomId u).state.onlineUsers e
        = mapGet s.onlineUsers e) ∧
    (∀ (s : ServerState) (cid : ConnId) (r1 r2 : String) (u1 u2 : User)
        (lastSeen : String) (err : Bool),
      isConn s cid = true → u1.email ≠ u2.email →
      mapGet (handleJoinRoom (handleJoinRoom s cid r1 u1).state
          cid r2 u2).state.onlineUsers u1.email = some cid ∧
      (∀ e, e ≠ u2.email →
        mapGet (handleDisconnect (handleJoinRoom
            (handleJoinRoom s cid r1 u1).state cid r2 u2).state
            cid lastSeen err).state.onlineUsers e
          = mapGet (handleJoinRoom (handleJoinRoom s cid r1 u1).state
              cid r2 u2).state.onlineUsers e) ∧
      mapGet (handleDisconnect (handleJoinRoom
          (handleJoinRoom s cid r1 u1).state cid r2 u2).state
          cid lastSeen err).state.onlineUsers u1.email = some cid) := by
  have frame : ∀ (s : ServerState) (cid : ConnId) (roomId : String)
      (u : User) (e : String), e ≠ u.email →
      mapGet (handleJoinRoom s cid roomId u).state.onlineUsers e
        = mapGet s.onlineUsers e := by
    intro s cid roomId u e he
    cases hc : mapGet s.conns cid with
    | none => simp [handleJoinRoom, hc]
    | some cs =>
      rw [handleJoinRoom_state s cid roomId u cs hc]
      exact mapGet_mapSet_ne _ _ he
  refine ⟨frame, ?_⟩
  intro s cid r1 r2 u1 u2 lastSeen err hc hne
  obtain ⟨cs, hcs⟩ := isConn_exists hc
  have hs1 := handleJoinRoom_state s cid r1 u1 cs hcs
  have hg1 : mapGet (handleJoinRoom s cid r1 u1).state.conns cid
      = some ⟨addRoom cs.rooms r1, some u1⟩ := by
    rw [hs1]
    exact mapGet_mapSet_self _ _ _
  have hs2 := handleJoinRoom_state (handleJoinRoom s cid r1 u1).state
    cid r2 u2 _ hg1
  have ha : mapGet (handleJoinRoom (handleJoinRoom s cid r1 u1).state
      cid r2 u2).state.onlineUsers u1.email = some cid := by
    rw [hs2]
    show mapGet (mapSet (handleJoinRoom s cid r1 u1).state.onlineUsers
      u2.email cid) u1.email = some cid
    rw [mapGet_mapSet_ne _ _ hne, hs1]
    exact mapGet_mapSet_self _ _ _
  have hg2 : mapGet (handleJoinRoom (handleJoinRoom s cid r1 u1).state
      cid r2 u2).state.conns cid
      = some ⟨addRoom (addRoom cs.rooms r1) r2, some u2⟩ := by
    rw [hs2]
    exact mapGet_mapSet_self _ _ _
  have hsd := handleDisconnect_state _ cid lastSeen err _ u2 hg2 rfl
  have hb : ∀ e, e ≠ u2.email →
      mapGet (handleDisconnect (handleJoinRoom
          (handleJoinRoom s cid r1 u1).state cid r2 u2).state
          cid lastSeen err).state.onlineUsers e
        = mapGet (handleJoinRoom (handleJoinRoom s cid r1 u1).state
            cid r2 u2).state.onlineUsers e := by
    intro e he
    rw [hsd]
    exact mapGet_mapDelete_ne _ he
  exact ⟨ha, hb, (hb u1.email hne).trans ha⟩

/-- C10 witness: the frame part at a concrete state and the two-email
scenario at a concrete connection. -/
theorem claim_C10_witness :
    mapGet (handleJoinRoom ⟨[("A", ⟨[], none⟩)], [("b@x.com", "B")]⟩
      "A" "r1" ⟨"1", "Alice", "a@x.com"⟩).state.onlineUsers "b@x.com"
      = mapGet (⟨[("A", ⟨[], none⟩)], [("b@x.com", "B")]⟩ :
          ServerState).onlineUsers "b@x.com" ∧
    mapGet (handleJoinRoom (handleJoinRoom ⟨[("A", ⟨[], none⟩)], []⟩
        "A" "r1" ⟨"1", "Alice", "e1@x.com"⟩).state
        "A" "r2" ⟨"1", "Alice", "e2@x.com"⟩).state.onlineUsers "e1@x.com"
      = some "A" :=
  ⟨claim_C10_join_frame.1 ⟨[("A", ⟨[], none⟩)], [("b@x.com", "B")]⟩
      "A" "r1" ⟨"1", "Alice", "a@x.com"⟩ "b@x.com" (by decide),
   (claim_C10_join_frame.2 ⟨[("A", ⟨[], none⟩)], []⟩ "A" "r1" "r2"
      ⟨"1", "Alice", "e1@x.com"⟩ ⟨"1", "Alice", "e2@x.com"⟩ "t0" false
      (by decide) (by decide)).1⟩

/-- When any two `join-room` events of the same connection id in a
trace agree on the email, one email can be assigned per connection id
covering every join in the trace. -/
theorem single_email_choice (tr : List Event)
    (hsingle : ∀ (cid : ConnId) (r1 r2 : String) (u1 u2 : User),
      Event.joinRoom cid r1 u1 ∈ tr → Event.joinRoom cid r2 u2 ∈ tr →
      u1.email = u2.email) :
    ∃ em : ConnId → String, ∀ (cid : ConnId) (r : String) (u : User),
      Event.joinRoom cid r u ∈ tr → u.email = em cid := by
  classical
  refine ⟨fun cid =>
    if h : ∃ r u, Event.joinRoom cid r u ∈ tr
    then (Classical.choose (Classical.choose_spec h)).email
    else "", ?_⟩
  intro cid r u hmem
  have hex : ∃ r u, Event.joinRoom cid r u ∈ tr := ⟨r, u, hmem⟩
  simp only [dif_pos hex]
  exact hsingle cid r (Classical.choose hex) u
    (Classical.choose (Classical.choose_spec hex)) hmem
    (Classical.choose_spec (Classical.choose_spec hex))

/-- C2 — counterexample: connection `A` joins as `e1@x.com`, re-joins
as `e2@x.com`, and disconnects; only `e2@x.com` is evicted, so the
reached state has a presence entry (`e1@x.com` ↦ `A`) while no
connection at all is registered — a stale entry persisting after the
stale connection's disconnect, not a transient overwrite window. -/
theorem claim_C2_counterexample :
    ("e1@x.com", "A") ∈ (run initState
      [Event.connect "A",
       Event.joinRoom "A" "r1" ⟨"1", "Alice", "e1@x.com"⟩,
       Event.joinRoom "A" "r1" ⟨"1", "Alice", "e2@x.com"⟩,
       Event.disconnect "A" "t0" false]).onlineUsers ∧
    (run initState
      [Event.connect "A",
       Event.joinRoom "A" "r1" ⟨"1", "Alice", "e1@x.com"⟩,
       Event.joinRoom "A" "r1" ⟨"1", "Alice", "e2@x.com"⟩,
       Event.disconnect "A" "t0" false]).conns = [] ∧
    ¬ presenceRegistered (run initState
      [Event.connect "A",
       Event.joinRoom "A" "r1" ⟨"1", "Alice", "e1@x.com"⟩,
       Event.joinRoom "A" "r1" ⟨"1", "Alice", "e2@x.com"⟩,
       Event.disconnect "A" "t0" false]) := by
  refine ⟨by decide, by decide, ?_⟩
  intro h
  have := h ("e1@x.com", "A") (by decide)
  simp [isConn, initState, run, step, handleConnect, handleJoinRoom,
    handleDisconnect, mapGet, mapSet, mapDelete] at this

/-- C2 (amended) — presence/registry consistency holds on every trace
in which each connection id only ever joins under a single email: in
the state reached by any such trace from startup, every entry of the
presence map references a currently-registered connection (with no
violation window at all).  Without that restriction the invariant fails
permanently, as the counterexample shows: a connection that re-joins
under a second email strands its first email's entry forever. -/
theorem claim_C2_amended_presence_registry (tr : List Event)
    (hsingle : ∀ (cid : ConnId) (r1 r2 : String) (u1 u2 : User),
      Event.joinRoom cid r1 u1 ∈ tr → Event.joinRoom cid r2 u2 ∈ tr →
      u1.email = u2.email) :
    presenceRegistered (run initState tr) := by
  obtain ⟨em, hem⟩ := single_email_choice tr hsingle
  have hinv := presenceInv_run em tr initState (presenceInv_init em) ?_
  · intro p hp
    obtain ⟨cs, hcs, -⟩ := hinv.1 p hp
    simp [isConn, hcs]
  · intro ev hev
    cases ev with
    | joinRoom cid r u => exact hem cid r u hev
    | connect cid => trivial
    | typing cid roomId t n => trivial
    | sendMessage cid msg e => trivial
    | newRoomCreated cid rid rname g members => trivial
    | offer cid roomId sdp => trivial
    | answer cid roomId sdp => trivial
    | iceCandidate cid roomId c => trivial
    | disconnect cid lastSeen e => trivial

/-- C2 witness: a concrete single-email trace reaching a state whose
one presence entry points at the registered connection. -/
theorem claim_C2_witness :
    presenceRegistered (run initState
      [Event.connect "A",
       Event.joinRoom "A" "r1" ⟨"1", "Alice", "a@x.com"⟩]) :=
  claim_C2_amended_presence_registry
    [Event.connect "A", Event.joinRoom "A" "r1" ⟨"1", "Alice", "a@x.com"⟩]
    (by
      intro cid r1 r2 u1 u2 h1 h2
      simp only [List.mem_cons, List.not_mem_nil, or_false] at h1 h2
      rcases h1 with h1 | h1
      · exact Event.noConfusion h1
      · rcases h2 with h2 | h2
        · exact Event.noConfusion h2
        · obtain ⟨-, -, hu1⟩ := Event.joinRoom.inj h1
          obtain ⟨-, -, hu2⟩ := Event.joinRoom.inj h2
          rw [hu1, hu2])

/-- C3 — Fail-closed message relay: a `send_message` whose Supabase
insert returns an error produces no emission at all (so no connection
receives a `receive_message`), leaves the server state unchanged, still
performed the insert call, and only logs the error. -/
theorem claim_C3_send_message_fail_closed (s : ServerState) (msg : Message) :
    (handleSendMessage s msg true).emits = [] ∧
    (handleSendMessage s msg true).state = s ∧
    (handleSendMessage s msg true).calls = [DbCall.insertMessage msg] ∧
    (handleSendMessage s msg true).logs = [LogEntry.supabaseInsertError] ∧
    ∀ c, deliveredCount s (handleSendMessage s msg true).emits c = 0 :=
  ⟨rfl, rfl, rfl, rfl, fun _ => rfl⟩

/-- C4 — Successful message delivery: a `send_message` whose insert
succeeds changes no state and emits exactly one `receive_message`
carrying the message to the message's room; each current member of that
room (the sender, being a member, included) receives it exactly once,
and every other connection receives nothing. -/
theorem claim_C4_send_message_success_delivery (s : ServerState)
    (msg : Message) :
    (handleSendMessage s msg false).state = s ∧
    (handleSendMessage s msg false).emits
      = [Emission.toRoom msg.roomId (OutEvent.receive_message msg)] ∧
    ∀ c, deliveredCount s (handleSendMessage s msg false).emits c
      = if isConn s c = true ∧ inRoom s c msg.roomId = true
        then 1 else 0 := by
  refine ⟨rfl, rfl, fun c => ?_⟩
  by_cases h1 : isConn s c <;> by_cases h2 : inRoom s c msg.roomId <;>
    simp [handleSendMessage, deliveredCount, receives, List.filter, h1, h2]

/-- C7 — Typing relay exclusion: a `typing` event from connection `cid`
in room `roomId` mutates no state and makes no store call; its single
room-scoped emission is delivered exactly once to every connected member
of the room other than `cid`, and to nobody else (neither `cid` itself
nor any non-member). -/
theorem claim_C7_typing_relay_exclusion (s : ServerState) (cid : ConnId)
    (roomId : String) (t : Bool) (n : String) :
    (handleTyping s cid roomId t n).state = s ∧
    (handleTyping s cid roomId t n).calls = [] ∧
    (handleTyping s cid roomId t n).emits
      = [Emission.toRoomExcept roomId cid (OutEvent.typing t n)] ∧
    ∀ c, deliveredCount s (handleTyping s cid roomId t n).emits c
      = if c ≠ cid ∧ isConn s c = true ∧ inRoom s c roomId = true
        then 1 else 0 := by
  refine ⟨rfl, rfl, rfl, fun c => ?_⟩
  by_cases h0 : c = cid <;> by_cases h1 : isConn s c <;>
    by_cases h2 : inRoom s c roomId <;>
    simp [handleTyping, deliveredCount, receives, List.filter, h0, h1, h2]

/-- C8 — Room-creation announcement: a `new_room_created` event changes
no registry or presence state, makes no store call, and emits one global
`room_added` with the `{id, name, is_group, members}` payload that every
currently known connection (the sender included) receives exactly once,
regardless of room membership. -/
theorem claim_C8_room_added_global (s : ServerState) (rid rname : String)
    (g : Bool) (members : List String) :
    (handleNewRoomCreated s rid rname g members).state = s ∧
    (handleNewRoomCreated s rid rname g members).calls = [] ∧
    (handleNewRoomCreated s rid rname g members).emits
      = [Emission.toAll (OutEvent.room_added rid rname g members)] ∧
    ∀ c, deliveredCount s (handleNewRoomCreated s rid rname g members).emits c
      = if isConn s c = true then 1 else 0 := by
  refine ⟨rfl, rfl, rfl, fun c => ?_⟩
  by_cases h1 : isConn s c <;>
    simp [handleNewRoomCreated, deliveredCount, receives, List.filter, h1]

end RemoteSuite
